import Mathlib

/-
Verification of the tag-links backend core: the Levenshtein fuzzy-matching
engine (src/back/src/services/levenshtein_service.py) and the tag graph
engine (src/back/src/repositories/tag_repository.py,
src/back/src/repositories/url_repository.py and the corresponding
controllers).  Python strings are modelled as `String`/`List Char`, Python
floats arising from `1 - distance/length` as exact rationals `ℚ`, and the
Neo4j property graph as explicit lists of nodes and edges.  Nondeterministic
inputs of the code (uuid4 identifiers, datetime()) are passed as explicit
parameters.
-/

namespace TagLinks

/-! ## Fuzzy matching engine -/

/-- Python `s.lower()` applied to a string, viewed as its character list
(`str.lower`; the backend only ever feeds it tag names and URL text). -/
def lowerList (s : String) : List Char :=
  s.toList.map Char.toLower

/-- One inner iteration of `levenshtein_distance`'s dynamic-programming fill:
given the current character `c1` of `s1`, the remaining characters of `s2`,
the diagonal entry `matrix[i-1][j-1]`, the entry `matrix[i][j-1]` just
computed, and the rest of the previous row starting at `matrix[i-1][j]`,
produce the rest of row `i`. -/
def levRowAux (c1 : Char) : List Char → Nat → Nat → List Nat → List Nat
  | [], _, _, _ => []
  | _ :: _, _, _, [] => []
  | c2 :: rest, diag, left, up :: prevRest =>
    let cost : Nat := if c1 = c2 then 0 else 1
    let cell := min (up + 1) (min (left + 1) (diag + cost))
    cell :: levRowAux c1 rest up cell prevRest

/-- Row `i` of the distance matrix, from row `i-1` (`prev`); the first cell is
the base-column value `i`. -/
def levNextRow (c1 : Char) (l2 : List Char) (prev : List Nat) (i : Nat) : List Nat :=
  match prev with
  | [] => [i]
  | diag :: prevRest => i :: levRowAux c1 l2 diag i prevRest

/-- The outer loop of the dynamic-programming fill: consume the characters of
`s1`, producing row after row, starting from row index `i`. -/
def levLoop (l2 : List Char) : List Char → List Nat → Nat → List Nat
  | [], prev, _ => prev
  | c1 :: rest, prev, i => levLoop l2 rest (levNextRow c1 l2 prev i) (i + 1)

/-- The value `matrix[len1][len2]` of `levenshtein_distance` computed on two
already-lowercased character lists.  Row `0` is `[0, 1, ..., len2]` and the
answer is the last entry of the final row. -/
def levDistList (l1 l2 : List Char) : Nat :=
  (levLoop l2 l1 (List.range (l2.length + 1)) 1).getLastD 0

/-- `levenshtein_distance(s1, s2)` from `levenshtein_service.py`: both inputs
are lowercased, then the classic edit-distance table is filled. -/
def levenshtein_distance (s1 s2 : String) : Nat :=
  levDistList (lowerList s1) (lowerList s2)

/-- The body of `levenshtein_similarity`'s window loop for one starting offset
`i`: the score `1 - distance(query, text[i : i + len(query)]) / len(query)`,
on lowercased character lists.  This is the per-window quantity named by the
specification. -/
def windowSimilarity (q t : List Char) (i : Nat) : ℚ :=
  1 - (levDistList q ((t.drop i).take q.length) : ℚ) / (q.length : ℚ)

/-- Specification-side definition ("the maximum found over every starting
offset"): the maximum of `windowSimilarity` over all window offsets
`0, ..., len(text) - len(query)`, starting from `0.0` as in the code's
`best_similarity` accumulator.  Stated from the spec's words, to be compared
with the implementation `levenshtein_similarity`. -/
def maxWindowSimilarity (q t : List Char) : ℚ :=
  (List.range (t.length - q.length + 1)).foldl
    (fun best i => max best (windowSimilarity q t i)) 0

/-- The window loop of `levenshtein_similarity`: for each starting offset `i`
compute the window score, keep the best so far (`if similarity >
best_similarity`), and break out of the loop as soon as the best reaches
`1.0`. -/
def bestSimLoop (q t : List Char) (qlen : Nat) : List Nat → ℚ → ℚ
  | [], best => best
  | i :: rest, best =>
    let substring := (t.drop i).take qlen
    let dist := levDistList q substring
    let similarity : ℚ := 1 - (dist : ℚ) / (qlen : ℚ)
    let best2 := if best < similarity then similarity else best
    if best2 = 1 then best2 else bestSimLoop q t qlen rest best2

/-- `levenshtein_similarity(query, text)` from `levenshtein_service.py`: if
the query is at least as long as the text, one whole-string comparison
normalised by the longer length (`1.0` when both are empty); otherwise slide
a window of the query's length across the text and return the best window
score, short-circuiting on a perfect match. -/
def levenshtein_similarity (query text : String) : ℚ :=
  let query_lower := lowerList query
  let text_lower := lowerList text
  if text_lower.length ≤ query_lower.length then
    let dist := levDistList query_lower text_lower
    let max_len := max query_lower.length text_lower.length
    if max_len = 0 then 1 else 1 - (dist : ℚ) / (max_len : ℚ)
  else
    bestSimLoop query_lower text_lower query_lower.length
      (List.range (text_lower.length - query_lower.length + 1)) 0

/-- `search_by_similarity(query, items, threshold)` from
`levenshtein_service.py`: score every `(text, item)` pair, keep those with
`similarity >= threshold` in input order, then stable-sort by score, highest
first (Python's `list.sort(key=..., reverse=True)` is a stable sort). -/
def search_by_similarity {α : Type} (query : String) (items : List (String × α))
    (threshold : ℚ) : List (α × ℚ) :=
  let results := items.filterMap (fun ti =>
    let similarity := levenshtein_similarity query ti.1
    if threshold ≤ similarity then some (ti.2, similarity) else none)
  results.mergeSort (fun a b => decide (b.2 ≤ a.2))

/-! ## Tag graph data model

The Neo4j property graph is modelled explicitly: `User` nodes by their ids,
`Tag` nodes as records, `URL` nodes by their ids, `OWNS` edges from a user to
a tag or url, untyped `HAS_TAG` edges from a url to a tag, and typed
tag-to-tag relationship edges.  Edge lists may contain duplicates exactly
where Cypher `CREATE` (as opposed to `MERGE`) can create them. -/

/-- The `Tag` record of `src/models/tag.py`, as stored on a Tag node. -/
structure Tag where
  id : String
  name : String
  description : Option String
  color : Option String
  user_id : String
  is_system : Bool
  created_at : Nat
  updated_at : Nat
deriving DecidableEq, Repr

/-- The `TagCreate` request model (`user_id` is filled in by the controller
from the authenticated user before it reaches the repository). -/
structure TagCreate where
  name : String
  description : Option String
  color : Option String
  user_id : String
  is_system : Option Bool
deriving DecidableEq, Repr

/-- The `TagUpdate` request model: absent fields mean "leave unchanged". -/
structure TagUpdate where
  name : Option String
  description : Option String
  color : Option String
deriving DecidableEq, Repr

/-- The three tag-to-tag relationship kinds. -/
inductive RelType where
  | PARENT_OF
  | COMPOSED_OF
  | RELATED_TO
deriving DecidableEq, Repr

/-- The graph database state. -/
structure GraphState where
  users : List String
  tags : List Tag
  urls : List String
  owns : List (String × String)
  hasTag : List (String × String)
  rel : List (RelType × String × String)
deriving DecidableEq, Repr

/-- `TagRepository.get_by_name_and_user`: match the user node, follow an
`OWNS` edge to a tag, and filter on the tag name (first match). -/
def get_by_name_and_user (s : GraphState) (name user_id : String) : Option Tag :=
  if user_id ∈ s.users then
    s.tags.find? (fun t => decide ((user_id, t.id) ∈ s.owns) && decide (t.name = name))
  else none

/-- `TagRepository.create`: if a tag with the same name already exists for
this user, return it unchanged; otherwise create a fresh Tag node (uuid and
timestamps passed explicitly) linked to the user by an `OWNS` edge.  The
`none` result models the `ValueError` raised when the user node is
missing. -/
def create (s : GraphState) (freshId : String) (now : Nat) (tag : TagCreate) :
    GraphState × Option Tag :=
  match get_by_name_and_user s tag.name tag.user_id with
  | some existing_tag => (s, some existing_tag)
  | none =>
    if tag.user_id ∈ s.users then
      let t : Tag :=
        { id := freshId, name := tag.name, description := tag.description,
          color := tag.color, user_id := tag.user_id,
          is_system := tag.is_system.getD false,
          created_at := now, updated_at := now }
      ({ s with tags := s.tags ++ [t], owns := s.owns ++ [(tag.user_id, freshId)] },
       some t)
    else (s, none)

/-- `TagRepository.get_by_id`. -/
def get_by_id (s : GraphState) (tag_id : String) : Option Tag :=
  s.tags.find? (fun t => decide (t.id = tag_id))

/-- `TagRepository.update`: build the `SET` clause from the fields that are
present; with no fields present, return `get_by_id` without touching the
store; otherwise set the present fields plus `updated_at` on the matched
tag. -/
def update (s : GraphState) (now : Nat) (tag_id : String) (tag : TagUpdate) :
    GraphState × Option Tag :=
  if tag.name = none ∧ tag.description = none ∧ tag.color = none then
    (s, get_by_id s tag_id)
  else
    match s.tags.find? (fun t => decide (t.id = tag_id)) with
    | none => (s, none)
    | some t =>
      let t' : Tag :=
        { t with
          name := match tag.name with | some n => n | none => t.name,
          description := match tag.description with | some d => some d | none => t.description,
          color := match tag.color with | some c => some c | none => t.color,
          updated_at := now }
      ({ s with tags := s.tags.map (fun x => if x.id = tag_id then t' else x) }, some t')

/-- Common body of `create_parent_of_relation`, `create_composed_of_relation`
and `create_related_to_relation`: `MATCH` both tags, `MERGE` the typed edge
(create it only if absent), report whether the match succeeded. -/
def mergeTagRelEdge (s : GraphState) (rtype : RelType) (from_id to_id : String) :
    GraphState × Bool :=
  if s.tags.any (fun t => decide (t.id = from_id)) &&
      s.tags.any (fun t => decide (t.id = to_id)) then
    if (rtype, from_id, to_id) ∈ s.rel then (s, true)
    else ({ s with rel := s.rel ++ [(rtype, from_id, to_id)] }, true)
  else (s, false)

/-- `TagRepository.create_parent_of_relation`. -/
def create_parent_of_relation (s : GraphState) (parent_id child_id : String) :
    GraphState × Bool :=
  mergeTagRelEdge s .PARENT_OF parent_id child_id

/-- `TagRepository.create_composed_of_relation`. -/
def create_composed_of_relation (s : GraphState) (whole_id part_id : String) :
    GraphState × Bool :=
  mergeTagRelEdge s .COMPOSED_OF whole_id part_id

/-- `TagRepository.create_related_to_relation`. -/
def create_related_to_relation (s : GraphState) (tag1_id tag2_id : String) :
    GraphState × Bool :=
  mergeTagRelEdge s .RELATED_TO tag1_id tag2_id

/-- Dispatch over the three relationship-creation repository methods. -/
def create_relation (s : GraphState) : RelType → String → String → GraphState × Bool
  | .PARENT_OF, a, b => create_parent_of_relation s a b
  | .COMPOSED_OF, a, b => create_composed_of_relation s a b
  | .RELATED_TO, a, b => create_related_to_relation s a b

/-- The result record of `TagRepository.merge_tags`. -/
structure MergeResult where
  urls_updated : Nat
  tags_merged : Nat
deriving DecidableEq, Repr

/-- Step 2 of `merge_tags`'s Cypher pipeline: the `(url, sourceTag)` rows of
`MATCH (url:URL)-[:HAS_TAG]->(sourceTag:Tag) WHERE sourceTag.id IN
$all_source_ids` (tag nodes stand by their ids). -/
def mergePairs (s : GraphState) (source_tag_ids : List String) :
    List (String × String) :=
  s.hasTag.filter (fun e => decide (e.2 ∈ source_tag_ids))

/-- The distinct urls among those rows (`WITH DISTINCT url, ...`). -/
def mergeUrls (s : GraphState) (source_tag_ids : List String) : List String :=
  ((mergePairs s source_tag_ids).map Prod.fst).dedup

/-- Step 4's rows: for each such url `UNWIND` its distinct source tags
(`collect(DISTINCT sourceTag)`) and keep those with `sourceTag.id <>
targetTag.id AND sourceTag.id IN $other_source_ids`. -/
def mergeRows4 (s : GraphState) (source_tag_ids : List String)
    (target_tag_id : String) : List (String × String) :=
  let other_source_ids := source_tag_ids.filter (fun tid => decide (tid ≠ target_tag_id))
  (mergeUrls s source_tag_ids).flatMap (fun u =>
    ((((mergePairs s source_tag_ids).filter (fun e => decide (e.1 = u))).map
        Prod.snd).dedup.filter
      (fun st => decide (st ≠ target_tag_id) && decide (st ∈ other_source_ids))).map
      (fun st => (u, st)))

/-- `TagRepository.merge_tags`, following the Cypher pipeline row by row:
rename/recolor the target (no rows, hence counts `0/0` and no change, if the
target id matches no tag); `MERGE` a `HAS_TAG` edge to the target from every
url carrying any source tag; delete the `HAS_TAG` edges named by the step-4
rows (url paired with a non-target source tag it carries); count distinct
urls and collect distinct source tags over the surviving rows; `DETACH
DELETE` those source tags.  Source tags carried by no url never appear in a
row, so they are neither counted nor deleted. -/
def merge_tags (s : GraphState) (source_tag_ids : List String)
    (target_tag_id new_name new_color : String) : GraphState × MergeResult :=
  match s.tags.find? (fun t => decide (t.id = target_tag_id)) with
  | none => (s, ⟨0, 0⟩)
  | some _ =>
    let tags1 := s.tags.map (fun t =>
      if t.id = target_tag_id then { t with name := new_name, color := some new_color }
      else t)
    let s1 : GraphState := { s with tags := tags1 }
    let urls := mergeUrls s1 source_tag_ids
    let s2 : GraphState := { s1 with
      hasTag := s1.hasTag ++
        (urls.filter (fun u => decide ((u, target_tag_id) ∉ s1.hasTag))).map
          (fun u => (u, target_tag_id)) }
    let rows4 := mergeRows4 s1 source_tag_ids target_tag_id
    let s3 : GraphState := { s2 with
      hasTag := s2.hasTag.filter (fun e => decide (e ∉ rows4)) }
    let urls_updated := (rows4.map Prod.fst).dedup.length
    let sourceTags := (rows4.map Prod.snd).dedup
    let s4 : GraphState := { s3 with
      tags := s3.tags.filter (fun t => decide (t.id ∉ sourceTags)),
      hasTag := s3.hasTag.filter (fun e => decide (e.2 ∉ sourceTags)),
      rel := s3.rel.filter (fun e =>
        decide (e.2.1 ∉ sourceTags) && decide (e.2.2 ∉ sourceTags)),
      owns := s3.owns.filter (fun e => decide (e.2 ∉ sourceTags)) }
    (s4, ⟨urls_updated, sourceTags.length⟩)

/-! ## Controller layer -/

/-- The error outcomes of the `/tags/merge` endpoint
(`tag_controller.merge_tags`). -/
inductive MergeError where
  | badRequest
  | notFound (tag_id : String)
  | forbiddenNotOwner (tag_id : String)
  | forbiddenSystem
deriving DecidableEq, Repr

/-- Whether an error is an HTTP 403 Forbidden. -/
def MergeError.isForbidden : MergeError → Bool
  | .forbiddenNotOwner _ => true
  | .forbiddenSystem => true
  | _ => false

/-- The controller's validation loop over the source tag ids: each must
exist, belong to the current user, and not be a system tag; the first
violation wins. -/
def validate_merge_sources (s : GraphState) (user_id : String) :
    List String → Option MergeError
  | [] => none
  | tag_id :: rest =>
    match get_by_id s tag_id with
    | none => some (.notFound tag_id)
    | some t =>
      if t.user_id ≠ user_id then some (.forbiddenNotOwner tag_id)
      else if t.is_system then some .forbiddenSystem
      else validate_merge_sources s user_id rest

/-- `tag_controller.merge_tags`: reject lists of fewer than two ids, take the
first id as the target, validate every source id, then run the repository
merge.  Error outcomes leave the state untouched, as the controller raises
before calling the repository. -/
def merge_tags_endpoint (s : GraphState) (current_user : String)
    (source_tag_ids : List String) (new_name new_color : String) :
    GraphState × Except MergeError MergeResult :=
  if source_tag_ids.length < 2 then (s, .error .badRequest)
  else
    let target_tag_id := source_tag_ids.headD ""
    match validate_merge_sources s current_user source_tag_ids with
    | some e => (s, .error e)
    | none =>
      let sr := merge_tags s source_tag_ids target_tag_id new_name new_color
      (sr.1, .ok sr.2)

/-- `tag_controller.create_tag`: overwrite the request's `user_id` with the
authenticated user and call the repository `create`. -/
def create_tag (s : GraphState) (freshId : String) (now : Nat) (current_user : String)
    (tag : TagCreate) : GraphState × Option Tag :=
  create s freshId now { tag with user_id := current_user }

/-- Modelled from the spec: `DOCUMENT_TYPES` is imported from
`src.models.url` throughout the backend, but its definition is missing from
the sources; the spec describes it as "a fixed enumerated set of document
type tag names (closed category, e.g. PDF/Image/Video/etc.)".  We fix one
such closed set, including the document types named in the spec's
scenarios. -/
def DOCUMENT_TYPES : List String :=
  ["PDF", "Image", "Video", "Audio", "Invoice", "Receipt"]

/-- Colour given to document-type tags (`DOCUMENT_TYPE_TAG_COLOR`). -/
def DOCUMENT_TYPE_TAG_COLOR : String := "#92400E"

/-- The reserved tag names (`url_controller.SYSTEM_TAG_NAMES`): the built-in
Favoris/Partage markers plus every document-type name. -/
def SYSTEM_TAG_NAMES : List String := ["Favoris", "Partage"] ++ DOCUMENT_TYPES

/-- Ids of the tags whose name is a document-type name. -/
def docTypeTagIds (s : GraphState) : List String :=
  (s.tags.filter (fun t => decide (t.name ∈ DOCUMENT_TYPES))).map Tag.id

/-- The distinct document-type tags attached to a url. -/
def urlDocTypeTagIds (s : GraphState) (url_id : String) : List String :=
  ((s.hasTag.filter (fun e => decide (e.1 = url_id) && decide (e.2 ∈ docTypeTagIds s))).map
    Prod.snd).dedup

/-- Modelled from the spec: the has-tag edges of the state with every
document-type edge of the given url removed, the first half of §4.2's
set-replacement rule. -/
def clearedDocEdges (s : GraphState) (url_id : String) : List (String × String) :=
  s.hasTag.filter (fun e => !(decide (e.1 = url_id) && decide (e.2 ∈ docTypeTagIds s)))

/-- Modelled from the spec: the document-type set-replacement operation
(`manage_document_type_tag`, §4.2), which is not present under the backend
sources (document-type selection happens outside them).  "On update: remove
every existing document-type has-tag edge from the URL, then — if a new
document type was specified — find-or-create that type's tag for the owner
and attach it." -/
def manage_document_type_tag (s : GraphState) (freshId : String) (now : Nat)
    (user_id url_id : String) (new_type : Option String) : GraphState :=
  let cleared := clearedDocEdges s url_id
  let s1 : GraphState := { s with hasTag := cleared }
  match new_type with
  | none => s1
  | some ty =>
    let created := create s1 freshId now
      { name := ty, description := some ("Type de document : " ++ ty),
        color := some DOCUMENT_TYPE_TAG_COLOR, user_id := user_id,
        is_system := some true }
    match created.2 with
    | none => created.1
    | some t => { created.1 with hasTag := created.1.hasTag ++ [(url_id, t.id)] }

/-! ## Derived predicates and concrete fixtures -/

deriving instance DecidableEq for Except

/-- Names are unique per owner (§3 invariant). -/
abbrev namesUniquePerOwner (s : GraphState) : Prop :=
  ∀ t1 ∈ s.tags, ∀ t2 ∈ s.tags, t1.user_id = t2.user_id → t1.name = t2.name → t1 = t2

/-- Every tag node is reachable from its owner by an `OWNS` edge (true in
every state the repository can build, since `create` adds the edge together
with the node). -/
abbrev ownsComplete (s : GraphState) : Prop :=
  ∀ t ∈ s.tags, (t.user_id, t.id) ∈ s.owns

/-- The distinct urls carrying a `HAS_TAG` edge to any tag of `ids`. -/
def urlsTaggedByAny (s : GraphState) (ids : List String) : Finset String :=
  ((s.hasTag.filter (fun e => decide (e.2 ∈ ids))).map Prod.fst).toFinset

/-- The distinct tags of `ids` carried by at least one url. -/
def attachedSourceTagIds (s : GraphState) (ids : List String) : Finset String :=
  ((s.hasTag.filter (fun e => decide (e.2 ∈ ids))).map Prod.snd).toFinset

/-- Fixture: a plain tag owned by user `u`. -/
def tagA : Tag := ⟨"a", "A", none, none, "u", false, 0, 0⟩

/-- Fixture: a second plain tag owned by user `u`. -/
def tagB : Tag := ⟨"b", "B", none, none, "u", false, 0, 0⟩

/-- Fixture: a third plain tag owned by user `u`, attached to no url. -/
def tagC : Tag := ⟨"c", "C", none, none, "u", false, 0, 0⟩

/-- Fixture: a system tag owned by user `u`. -/
def tagS : Tag := ⟨"s", "S", none, none, "u", true, 0, 0⟩

/-- Fixture: one user, one tag, one url tagged with it. -/
def stateA : GraphState := ⟨["u"], [tagA], ["u1"], [("u", "a")], [("u1", "a")], []⟩

/-- Fixture: tags `A`, `B`, `C`; url `u1` tagged `A`, url `u2` tagged `B`,
`C` attached to nothing. -/
def stateABC : GraphState :=
  ⟨["u"], [tagA, tagB, tagC], ["u1", "u2"],
   [("u", "a"), ("u", "b"), ("u", "c")], [("u1", "a"), ("u2", "b")], []⟩

/-- Fixture: a plain tag and a system tag. -/
def stateAS : GraphState :=
  ⟨["u"], [tagA, tagS], [], [("u", "a"), ("u", "s")], [], []⟩

/-- Fixture: one user, one untagged url, no tags. -/
def stateW : GraphState := ⟨["u"], [], ["w"], [], [], []⟩

/-! ## Theorems about the fuzzy matching engine -/

lemma windowSimilarity_le_one (q t : List Char) (i : Nat) :
    windowSimilarity q t i ≤ 1 := by
  unfold windowSimilarity
  have h : (0 : ℚ) ≤ (levDistList q ((t.drop i).take q.length) : ℚ) / (q.length : ℚ) :=
    div_nonneg (Nat.cast_nonneg _) (Nat.cast_nonneg _)
  linarith

lemma foldl_max_windowSimilarity_one (q t : List Char) (l : List Nat) :
    l.foldl (fun best i => max best (windowSimilarity q t i)) 1 = 1 := by
  induction l with
  | nil => rfl
  | cons i rest ih =>
    simp only [List.foldl_cons]
    rw [max_eq_left (windowSimilarity_le_one q t i)]
    exact ih

lemma bestSimLoop_eq_foldl (q t : List Char) (l : List Nat) :
    ∀ best : ℚ, bestSimLoop q t q.length l best =
      l.foldl (fun b i => max b (windowSimilarity q t i)) best := by
  induction l with
  | nil => intro best; rfl
  | cons i rest ih =>
    intro best
    have hsim : (1 - (levDistList q ((t.drop i).take q.length) : ℚ) / (q.length : ℚ)) =
        windowSimilarity q t i := rfl
    have hmax : (if best < windowSimilarity q t i then windowSimilarity q t i else best) =
        max best (windowSimilarity q t i) := by
      rcases lt_or_le best (windowSimilarity q t i) with h | h
      · rw [if_pos h, max_eq_right h.le]
      · rw [if_neg (not_lt.mpr h), max_eq_left h]
    show (let substring := (t.drop i).take q.length
          let dist := levDistList q substring
          let similarity : ℚ := 1 - (dist : ℚ) / (q.length : ℚ)
          let best2 := if best < similarity then similarity else best
          if best2 = 1 then best2 else bestSimLoop q t q.length rest best2) = _
    simp only [hsim, hmax, List.foldl_cons]
    by_cases h1 : max best (windowSimilarity q t i) = 1
    · rw [if_pos h1, h1, foldl_max_windowSimilarity_one]
    · rw [if_neg h1, ih]

lemma length_lowerList (s : String) : (lowerList s).length = s.length := by
  simp only [lowerList, List.length_map]
  rfl

/-- C2: for every pair of strings with the query strictly shorter than the
text, `levenshtein_similarity` returns exactly the maximum, over every
starting offset, of `1 - distance(query, window)/|query|` (the loop's
short-circuit on a perfect window does not change this value); in particular
the spec's two examples score `1.0`. -/
theorem C2_similarity_eq_max_over_windows :
    (∀ query text : String, query.length < text.length →
        levenshtein_similarity query text =
          maxWindowSimilarity (lowerList query) (lowerList text))
    ∧ levenshtein_similarity "java" "javascript" = 1
    ∧ levenshtein_similarity "script" "javascript" = 1 := by
  refine ⟨?_, by with_unfolding_all decide, by with_unfolding_all decide⟩
  intro query text h
  have hq := length_lowerList query
  have ht := length_lowerList text
  have hlt : (lowerList query).length < (lowerList text).length := by
    rw [hq, ht]; exact h
  unfold levenshtein_similarity
  rw [if_neg (not_le.mpr hlt)]
  exact bestSimLoop_eq_foldl (lowerList query) (lowerList text) _ 0

/-- Witness for C2 at the concrete input `("ja", "xjavy")`. -/
theorem C2_similarity_eq_max_over_windows_witness :
    ("ja" : String).length < ("xjavy" : String).length ∧
      levenshtein_similarity "ja" "xjavy" =
        maxWindowSimilarity (lowerList "ja") (lowerList "xjavy") :=
  ⟨by decide, C2_similarity_eq_max_over_windows.1 "ja" "xjavy" (by decide)⟩

/-- C5: `search_by_similarity` returns only candidates scoring at least the
threshold, sorted descending by score; candidates with equal scores keep
their input order (the post-filter list restricted to any one score value is
returned unchanged); an empty candidate list, or one where nothing reaches
the threshold, yields `[]` (the function is total, so no error is
possible). -/
theorem C5_search_by_similarity_spec :
    (∀ (α : Type) (query : String) (items : List (String × α)) (threshold : ℚ),
      (∀ p ∈ search_by_similarity query items threshold, threshold ≤ p.2)
      ∧ (search_by_similarity query items threshold).Pairwise
          (fun a b : α × ℚ => b.2 ≤ a.2)
      ∧ (∀ sc : ℚ,
          (search_by_similarity query items threshold).filter
              (fun p => decide (p.2 = sc)) =
            (items.filterMap (fun ti =>
              let similarity := levenshtein_similarity query ti.1
              if threshold ≤ similarity then some (ti.2, similarity) else none)).filter
              (fun p => decide (p.2 = sc)))
      ∧ ((∀ p ∈ items, levenshtein_similarity query p.1 < threshold) →
          search_by_similarity query items threshold = []))
    ∧ (∀ (α : Type) (query : String) (threshold : ℚ),
        search_by_similarity (α := α) query [] threshold = []) := by
  constructor
  · intro α query items threshold
    set f : String × α → Option (α × ℚ) := fun ti =>
      let similarity := levenshtein_similarity query ti.1
      if threshold ≤ similarity then some (ti.2, similarity) else none with hf
    set le : α × ℚ → α × ℚ → Bool := fun a b => decide (b.2 ≤ a.2) with hle
    have hdef : search_by_similarity query items threshold =
        (items.filterMap f).mergeSort le := rfl
    have htrans : ∀ a b c : α × ℚ, le a b = true → le b c = true → le a c = true := by
      intro a b c hab hbc
      simp only [hle, decide_eq_true_eq] at *
      exact le_trans hbc hab
    have htotal : ∀ a b : α × ℚ, (le a b || le b a) = true := by
      intro a b
      simp only [hle, Bool.or_eq_true, decide_eq_true_eq]
      exact le_total b.2 a.2
    have hmemf : ∀ p : α × ℚ, p ∈ items.filterMap f → threshold ≤ p.2 := by
      intro p hp
      rcases List.mem_filterMap.mp hp with ⟨a, _, hfa⟩
      simp only [hf] at hfa
      split at hfa
      · cases hfa
        assumption
      · cases hfa
    refine ⟨?_, ?_, ?_, ?_⟩
    · intro p hp
      rw [hdef] at hp
      exact hmemf p (((items.filterMap f).mergeSort_perm le).mem_iff.mp hp)
    · rw [hdef]
      exact (List.sorted_mergeSort htrans htotal (items.filterMap f)).imp
        (by intro a b h; exact of_decide_eq_true h)
    · intro sc
      set c : List (α × ℚ) := (items.filterMap f).filter (fun p => decide (p.2 = sc))
        with hc
      have hcpair : c.Pairwise (fun a b => le a b = true) := by
        apply List.pairwise_of_forall_mem_list
        intro a ha b hb
        rw [hc] at ha hb
        have ha2 : a.2 = sc := of_decide_eq_true (List.mem_filter.mp ha).2
        have hb2 : b.2 = sc := of_decide_eq_true (List.mem_filter.mp hb).2
        simp only [hle, decide_eq_true_eq, hb2, ha2, le_refl]
      have hsub : c.Sublist ((items.filterMap f).mergeSort le) :=
        List.sublist_mergeSort htrans htotal hcpair (hc ▸ List.filter_sublist _)
      have hcc : c.filter (fun p => decide (p.2 = sc)) = c := by
        rw [List.filter_eq_self]
        intro a ha
        rw [hc] at ha
        exact (List.mem_filter.mp ha).2
      have hsub2 := hsub.filter (fun p => decide (p.2 = sc))
      rw [hcc] at hsub2
      have hlen : (((items.filterMap f).mergeSort le).filter
          (fun p => decide (p.2 = sc))).length = c.length := by
        rw [hc]
        exact (((items.filterMap f).mergeSort_perm le).filter _).length_eq
      rw [hdef]
      exact (hsub2.eq_of_length (by rw [hlen])).symm
    · intro hnone
      have hnil : items.filterMap f = [] := by
        rw [List.filterMap_eq_nil_iff]
        intro a ha
        simp only [hf]
        rw [if_neg (not_le.mpr (hnone a ha))]
      rw [hdef, hnil, List.mergeSort_nil]
  · intro α query threshold
    show (([] : List (String × α)).filterMap _).mergeSort _ = []
    rw [List.filterMap_nil, List.mergeSort_nil]

/-- Witness for C5: a concrete search where the returned pair scores above
the threshold, and a concrete search where nothing reaches the threshold and
the result is empty. -/
theorem C5_search_by_similarity_spec_witness :
    (((1 : Nat), (1 : ℚ)) ∈ search_by_similarity "java" [("javascript", 1)] (1/2)
      ∧ (1/2 : ℚ) ≤ ((1 : Nat), (1 : ℚ)).2)
    ∧ ((∀ p ∈ [("xyz", (2 : Nat))], levenshtein_similarity "q" p.1 < (9/10 : ℚ))
      ∧ search_by_similarity "q" [("xyz", (2 : Nat))] (9/10) = []) :=
  ⟨⟨by with_unfolding_all decide,
    (C5_search_by_similarity_spec.1 Nat "java" [("javascript", 1)] (1/2)).1 _
      (by with_unfolding_all decide)⟩,
   ⟨by with_unfolding_all decide,
    (C5_search_by_similarity_spec.1 Nat "q" [("xyz", 2)] (9/10)).2.2.2
      (by with_unfolding_all decide)⟩⟩

/-! ## Theorems about the tag graph engine -/

lemma create_relation_eq_mergeTagRelEdge (s : GraphState) (k : RelType) (a b : String) :
    create_relation s k a b = mergeTagRelEdge s k a b := by
  cases k <;> rfl

/-- C9: for every relationship kind and every ordered pair of existing
distinct tags, starting from a state carrying at most one such edge (as
every reachable state does, these edges being created only by the `MERGE` of
the three creation methods), `create_relation` is idempotent: both calls
succeed, the second call changes nothing, and exactly one edge of that kind
between that ordered pair remains. -/
theorem C9_create_relation_idempotent (s : GraphState) (k : RelType) (a b : String)
    (ha : ∃ t ∈ s.tags, t.id = a) (hb : ∃ t ∈ s.tags, t.id = b) (_hab : a ≠ b)
    (hcount : s.rel.count (k, a, b) ≤ 1) :
    (create_relation (create_relation s k a b).1 k a b).1.rel.count (k, a, b) = 1
    ∧ (create_relation (create_relation s k a b).1 k a b).1 = (create_relation s k a b).1
    ∧ (create_relation s k a b).2 = true := by
  simp only [create_relation_eq_mergeTagRelEdge]
  have hA : s.tags.any (fun t => decide (t.id = a)) = true := by
    rcases ha with ⟨t, ht, hta⟩
    exact List.any_eq_true.mpr ⟨t, ht, by simp [hta]⟩
  have hB : s.tags.any (fun t => decide (t.id = b)) = true := by
    rcases hb with ⟨t, ht, htb⟩
    exact List.any_eq_true.mpr ⟨t, ht, by simp [htb]⟩
  by_cases hmem : (k, a, b) ∈ s.rel
  · have h1 : mergeTagRelEdge s k a b = (s, true) := by
      unfold mergeTagRelEdge
      rw [hA, hB]
      simp [hmem]
    have h2 : mergeTagRelEdge (mergeTagRelEdge s k a b).1 k a b = (s, true) := by
      rw [h1]
      exact h1
    rw [h2, h1]
    have hpos : 0 < s.rel.count (k, a, b) := List.count_pos_iff.mpr hmem
    exact ⟨by show s.rel.count (k, a, b) = 1; omega, rfl, rfl⟩
  · have h1 : mergeTagRelEdge s k a b =
        ({ s with rel := s.rel ++ [(k, a, b)] }, true) := by
      unfold mergeTagRelEdge
      rw [hA, hB]
      simp [hmem]
    have hmem1 : (k, a, b) ∈ ({ s with rel := s.rel ++ [(k, a, b)] } : GraphState).rel :=
      List.mem_append.mpr (Or.inr (List.mem_singleton_self _))
    have h2 : mergeTagRelEdge (mergeTagRelEdge s k a b).1 k a b =
        ({ s with rel := s.rel ++ [(k, a, b)] }, true) := by
      rw [h1]
      show mergeTagRelEdge ({ s with rel := s.rel ++ [(k, a, b)] } : GraphState) k a b = _
      unfold mergeTagRelEdge
      rw [show ({ s with rel := s.rel ++ [(k, a, b)] } : GraphState).tags = s.tags from rfl,
        hA, hB]
      simp [hmem1]
    rw [h2, h1]
    refine ⟨?_, rfl, rfl⟩
    show (s.rel ++ [(k, a, b)]).count (k, a, b) = 1
    rw [List.count_append, List.count_eq_zero.mpr hmem]
    simp

/-- Witness for C9 at the concrete input `(stateABC, PARENT_OF, "a", "b")`. -/
theorem C9_create_relation_idempotent_witness :
    (∃ t ∈ stateABC.tags, t.id = "a") ∧
      ((create_relation (create_relation stateABC .PARENT_OF "a" "b").1
          .PARENT_OF "a" "b").1.rel.count (RelType.PARENT_OF, "a", "b") = 1
        ∧ (create_relation (create_relation stateABC .PARENT_OF "a" "b").1
            .PARENT_OF "a" "b").1 = (create_relation stateABC .PARENT_OF "a" "b").1
        ∧ (create_relation stateABC .PARENT_OF "a" "b").2 = true) :=
  ⟨by decide, C9_create_relation_idempotent stateABC .PARENT_OF "a" "b" (by decide)
    (by decide) (by decide) (by decide)⟩

/-- C8: creating a tag whose name already exists for the owner is not an
error: the call returns the already-existing tag and the state is unchanged
(no new tag); consequently name-uniqueness per owner is preserved by every
`create` call (given the reachable-state facts that every tag has its `OWNS`
edge and names are unique beforehand). -/
theorem C8_duplicate_create_returns_existing :
    (∀ (s : GraphState) (freshId : String) (now : Nat) (tc : TagCreate) (t : Tag),
        get_by_name_and_user s tc.name tc.user_id = some t →
        create s freshId now tc = (s, some t))
    ∧ (∀ (s : GraphState) (freshId : String) (now : Nat) (tc : TagCreate),
        ownsComplete s → namesUniquePerOwner s →
        namesUniquePerOwner (create s freshId now tc).1) := by
  constructor
  · intro s freshId now tc t h
    simp only [create, h]
  · intro s freshId now tc hoc hnu
    rcases hget : get_by_name_and_user s tc.name tc.user_id with _ | t
    · by_cases hu : tc.user_id ∈ s.users
      · simp only [create, hget, if_pos hu]
        intro t1 h1 t2 h2 huid hname
        simp only at h1 h2
        rcases List.mem_append.mp h1 with h1o | h1n
        · rcases List.mem_append.mp h2 with h2o | h2n
          · exact hnu t1 h1o t2 h2o huid hname
          · exfalso
            have h2e := List.mem_singleton.mp h2n
            have howns : (tc.user_id, t1.id) ∈ s.owns := by
              have := hoc t1 h1o
              rwa [show t1.user_id = tc.user_id from by rw [huid, h2e]] at this
            have hnone : ∀ x ∈ s.tags,
                ¬(decide ((tc.user_id, x.id) ∈ s.owns) && decide (x.name = tc.name)) = true := by
              have hg := hget
              unfold get_by_name_and_user at hg
              rw [if_pos hu] at hg
              exact List.find?_eq_none.mp hg
            have hn1 : t1.name = tc.name := by rw [hname, h2e]
            exact hnone t1 h1o (by simp [howns, hn1])
        · rcases List.mem_append.mp h2 with h2o | h2n
          · exfalso
            have h1e := List.mem_singleton.mp h1n
            have howns : (tc.user_id, t2.id) ∈ s.owns := by
              have := hoc t2 h2o
              rwa [show t2.user_id = tc.user_id from by rw [← huid, h1e]] at this
            have hnone : ∀ x ∈ s.tags,
                ¬(decide ((tc.user_id, x.id) ∈ s.owns) && decide (x.name = tc.name)) = true := by
              have hg := hget
              unfold get_by_name_and_user at hg
              rw [if_pos hu] at hg
              exact List.find?_eq_none.mp hg
            have hn2 : t2.name = tc.name := by rw [← hname, h1e]
            exact hnone t2 h2o (by simp [howns, hn2])
          · rw [List.mem_singleton.mp h1n, List.mem_singleton.mp h2n]
      · simp only [create, hget, if_neg hu]
        exact hnu
    · simp only [create, hget]
      exact hnu

/-- Witness for C8: duplicate creation of `"A"` for user `"u"` returns
`tagA` unchanged, and a fresh creation preserves name-uniqueness. -/
theorem C8_duplicate_create_returns_existing_witness :
    (get_by_name_and_user stateABC "A" "u" = some tagA
      ∧ create stateABC "zz" 7 ⟨"A", none, none, "u", none⟩ = (stateABC, some tagA))
    ∧ (ownsComplete stateABC ∧ namesUniquePerOwner stateABC
      ∧ namesUniquePerOwner (create stateABC "zz" 7 ⟨"Z", none, none, "u", none⟩).1) :=
  ⟨⟨by decide, C8_duplicate_create_returns_existing.1 stateABC "zz" 7
      ⟨"A", none, none, "u", none⟩ tagA (by decide)⟩,
   ⟨by decide, by decide, C8_duplicate_create_returns_existing.2 stateABC "zz" 7
      ⟨"Z", none, none, "u", none⟩ (by decide) (by decide)⟩⟩

/-- C10: `TagRepository.update` touches only the tag list; an update with no
fields set returns `get_by_id` and leaves the state unchanged; every tag
other than the targeted one stays in the list, whose length is unchanged;
and the returned updated tag keeps the target's `id`, `user_id`,
`is_system` and `created_at` (only `name`, `description`, `color` and
`updated_at` can change). -/
theorem C10_tag_update_frame (s : GraphState) (now : Nat) (tag_id : String)
    (tu : TagUpdate) :
    update s now tag_id ⟨none, none, none⟩ = (s, get_by_id s tag_id)
    ∧ ((update s now tag_id tu).1.users = s.users
      ∧ (update s now tag_id tu).1.urls = s.urls
      ∧ (update s now tag_id tu).1.owns = s.owns
      ∧ (update s now tag_id tu).1.hasTag = s.hasTag
      ∧ (update s now tag_id tu).1.rel = s.rel)
    ∧ (∀ x ∈ s.tags, x.id ≠ tag_id → x ∈ (update s now tag_id tu).1.tags)
    ∧ (update s now tag_id tu).1.tags.length = s.tags.length
    ∧ (∀ t t', s.tags.find? (fun x => decide (x.id = tag_id)) = some t →
        (update s now tag_id tu).2 = some t' →
        t'.id = t.id ∧ t'.user_id = t.user_id ∧ t'.is_system = t.is_system
          ∧ t'.created_at = t.created_at) := by
  have hempty : update s now tag_id ⟨none, none, none⟩ = (s, get_by_id s tag_id) := by
    unfold update
    rw [if_pos ⟨rfl, rfl, rfl⟩]
  refine ⟨hempty, ?_⟩
  by_cases h0 : tu.name = none ∧ tu.description = none ∧ tu.color = none
  · have hdef : update s now tag_id tu = (s, get_by_id s tag_id) := by
      unfold update
      rw [if_pos h0]
    rw [hdef]
    refine ⟨⟨rfl, rfl, rfl, rfl, rfl⟩, fun x hx _ => hx, rfl, ?_⟩
    intro t t' hft hres
    have : get_by_id s tag_id = some t := hft
    rw [this] at hres
    cases hres
    exact ⟨rfl, rfl, rfl, rfl⟩
  · rcases hft : s.tags.find? (fun x => decide (x.id = tag_id)) with _ | t
    · have hdef : update s now tag_id tu = (s, none) := by
        unfold update
        rw [if_neg h0, hft]
      rw [hdef]
      refine ⟨⟨rfl, rfl, rfl, rfl, rfl⟩, fun x hx _ => hx, rfl, ?_⟩
      intro t t' hft2 hres
      cases hres
    · have hdef : update s now tag_id tu =
          ({ s with tags := s.tags.map (fun x => if x.id = tag_id then
              { t with
                name := match tu.name with | some n => n | none => t.name,
                description := match tu.description with
                  | some d => some d | none => t.description,
                color := match tu.color with | some c => some c | none => t.color,
                updated_at := now } else x) },
            some { t with
              name := match tu.name with | some n => n | none => t.name,
              description := match tu.description with
                | some d => some d | none => t.description,
              color := match tu.color with | some c => some c | none => t.color,
              updated_at := now }) := by
        unfold update
        rw [if_neg h0, hft]
      rw [hdef]
      refine ⟨⟨rfl, rfl, rfl, rfl, rfl⟩, ?_, List.length_map _ _, ?_⟩
      · intro x hx hne
        exact List.mem_map.mpr ⟨x, hx, by rw [if_neg hne]⟩
      · intro t0 t0' hft2 hres
        rw [hft] at hft2
        cases hft2
        cases hres
        exact ⟨rfl, rfl, rfl, rfl⟩

/-- Witness for C10 at the concrete input: state `stateABC`, updating tag
`"a"` with a new name and colour. -/
theorem C10_tag_update_frame_witness :
    (stateABC.tags.find? (fun x => decide (x.id = "a")) = some tagA
      ∧ (update stateABC 9 "a" ⟨some "A2", none, some "#111"⟩).2 =
          some ⟨"a", "A2", none, some "#111", "u", false, 0, 9⟩)
    ∧ ((⟨"a", "A2", none, some "#111", "u", false, 0, 9⟩ : Tag).id = tagA.id
      ∧ (⟨"a", "A2", none, some "#111", "u", false, 0, 9⟩ : Tag).user_id = tagA.user_id
      ∧ (⟨"a", "A2", none, some "#111", "u", false, 0, 9⟩ : Tag).is_system = tagA.is_system
      ∧ (⟨"a", "A2", none, some "#111", "u", false, 0, 9⟩ : Tag).created_at =
          tagA.created_at) :=
  ⟨⟨by decide, by decide⟩,
   (C10_tag_update_frame stateABC 9 "a" ⟨some "A2", none, some "#111"⟩).2.2.2.2 tagA
     ⟨"a", "A2", none, some "#111", "u", false, 0, 9⟩ (by decide) (by decide)⟩

/-- C4 (amended): tag creation never inspects the requested name against the
reserved set; the created tag's `is_system` is exactly the request's
`is_system` flag (defaulting to `false`), whatever the name.  Reserved-name
tags are created with `is_system = true` only by the dedicated
initialisation endpoints. -/
theorem C4_create_tag_is_system_from_request_flag
    (s : GraphState) (freshId : String) (now : Nat) (user : String) (tc : TagCreate)
    (hnone : get_by_name_and_user s tc.name user = none) (hu : user ∈ s.users) :
    ((create_tag s freshId now user tc).2).map Tag.is_system =
      some (tc.is_system.getD false) := by
  simp only [create_tag, create, hnone, if_pos hu]
  rfl

/-- Witness for C4 at a concrete fresh-name creation. -/
theorem C4_create_tag_is_system_from_request_flag_witness :
    (get_by_name_and_user stateA "NewTag" "u" = none ∧ "u" ∈ stateA.users)
    ∧ ((create_tag stateA "f1" 5 "u" ⟨"NewTag", none, none, "", none⟩).2).map
        Tag.is_system = some ((none : Option Bool).getD false) :=
  ⟨⟨by decide, by decide⟩,
   C4_create_tag_is_system_from_request_flag stateA "f1" 5 "u"
     ⟨"NewTag", none, none, "", none⟩ (by decide) (by decide)⟩

/-- C4 counterexample: `"Favoris"` is a reserved name (the built-in
favourites marker), yet a plain creation request with that name yields a tag
with `is_system = false`, refuting the claim that reserved-name creations
auto-set `is_system = true`. -/
theorem C4_reserved_name_create_not_system_counterexample :
    "Favoris" ∈ SYSTEM_TAG_NAMES
    ∧ ((create_tag stateA "f1" 5 "u" ⟨"Favoris", none, none, "", some false⟩).2).map
        Tag.is_system = some false
    ∧ ((create_tag stateA "f2" 5 "u" ⟨"Favoris", none, none, "", none⟩).2).map
        Tag.is_system = some false :=
  ⟨by decide, by decide, by decide⟩

/-- C7 (amended): a merge request whose source list has fewer than two
entries fails with 400 Bad Request before any state mutation; the check is
on the length of the list, so duplicated ids are not collapsed before the
comparison. -/
theorem C7_merge_fewer_than_two_ids_fails_before_mutation
    (s : GraphState) (user : String) (ids : List String) (new_name new_color : String)
    (h : ids.length < 2) :
    merge_tags_endpoint s user ids new_name new_color = (s, .error .badRequest) := by
  unfold merge_tags_endpoint
  rw [if_pos h]

/-- Witness for C7 at the concrete singleton request. -/
theorem C7_merge_fewer_than_two_ids_fails_before_mutation_witness :
    (["a"] : List String).length < 2
    ∧ merge_tags_endpoint stateA "u" ["a"] "x" "y" = (stateA, .error .badRequest) :=
  ⟨by decide, C7_merge_fewer_than_two_ids_fails_before_mutation stateA "u" ["a"] "x" "y"
    (by decide)⟩

/-- C7 counterexample: `["a", "a"]` carries a single distinct tag id, yet
the request passes the length check, succeeds, and mutates the state (the
target tag is renamed to `"merged"`), refuting the claim that fewer than two
distinct ids always fail before mutation. -/
theorem C7_duplicate_ids_pass_length_check_counterexample :
    (["a", "a"] : List String).dedup.length < 2
    ∧ (merge_tags_endpoint stateA "u" ["a", "a"] "merged" "#000").2 = .ok ⟨0, 0⟩
    ∧ (merge_tags_endpoint stateA "u" ["a", "a"] "merged" "#000").1 ≠ stateA :=
  ⟨by decide, by decide, by decide⟩

lemma validate_merge_sources_forbidden (s : GraphState) (user : String) :
    ∀ ids : List String, (∀ tid ∈ ids, (get_by_id s tid).isSome) →
      (∃ tid ∈ ids, ∃ t, get_by_id s tid = some t ∧ t.is_system = true) →
      ∃ e, validate_merge_sources s user ids = some e ∧ e.isForbidden = true := by
  intro ids
  induction ids with
  | nil =>
    intro _ hex
    rcases hex with ⟨tid, htid, _⟩
    cases htid
  | cons a rest ih =>
    intro hall hex
    rcases ho : get_by_id s a with _ | t
    · exfalso
      have := hall a (List.mem_cons_self a rest)
      rw [ho] at this
      cases this
    · by_cases howner : t.user_id ≠ user
      · refine ⟨.forbiddenNotOwner a, ?_, rfl⟩
        unfold validate_merge_sources
        rw [ho]
        exact if_pos howner
      · by_cases hsys : t.is_system = true
        · refine ⟨.forbiddenSystem, ?_, rfl⟩
          unfold validate_merge_sources
          rw [ho]
          exact (if_neg howner).trans (if_pos hsys)
        · have hex' : ∃ tid ∈ rest, ∃ t0, get_by_id s tid = some t0 ∧ t0.is_system = true := by
            rcases hex with ⟨tid, htid, t0, ht0, hsys0⟩
            rcases List.mem_cons.mp htid with rfl | hmem
            · rw [ho] at ht0
              cases ht0
              exact absurd hsys0 hsys
            · exact ⟨tid, hmem, t0, ht0, hsys0⟩
          rcases ih (fun tid htid => hall tid (List.mem_cons_of_mem a htid)) hex' with
            ⟨e, he, hf⟩
          refine ⟨e, ?_, hf⟩
          unfold validate_merge_sources
          rw [ho]
          exact (if_neg howner).trans ((if_neg hsys).trans he)

/-- C6 (amended): a merge request with at least two source ids, all of which
reference existing tags, one of which is a system tag, fails with a 403
Forbidden outcome (either the cross-owner or the system-tag rejection, both
Forbidden) and mutates nothing.  With fewer than two ids the failure is 400
Bad Request instead, and a missing source tag encountered before the system
tag yields 404 Not Found. -/
theorem C6_merge_with_system_tag_forbidden_no_mutation
    (s : GraphState) (user : String) (ids : List String) (new_name new_color : String)
    (hlen : 2 ≤ ids.length)
    (hall : ∀ tid ∈ ids, (get_by_id s tid).isSome)
    (hsys : ∃ tid ∈ ids, ∃ t, get_by_id s tid = some t ∧ t.is_system = true) :
    (merge_tags_endpoint s user ids new_name new_color).1 = s
    ∧ ∃ e, (merge_tags_endpoint s user ids new_name new_color).2 = .error e
        ∧ e.isForbidden = true := by
  rcases validate_merge_sources_forbidden s user ids hall hsys with ⟨e, he, hf⟩
  unfold merge_tags_endpoint
  rw [if_neg (by omega : ¬ids.length < 2), he]
  exact ⟨rfl, e, rfl, hf⟩

/-- Witness for C6 at the concrete input `(stateAS, ["a", "s"])` where `"s"`
is a system tag. -/
theorem C6_merge_with_system_tag_forbidden_no_mutation_witness :
    (2 ≤ (["a", "s"] : List String).length
      ∧ (∀ tid ∈ (["a", "s"] : List String), (get_by_id stateAS tid).isSome))
    ∧ (merge_tags_endpoint stateAS "u" ["a", "s"] "n" "c").1 = stateAS
    ∧ ∃ e, (merge_tags_endpoint stateAS "u" ["a", "s"] "n" "c").2 = .error e
        ∧ e.isForbidden = true :=
  ⟨⟨by decide, by decide⟩,
   C6_merge_with_system_tag_forbidden_no_mutation stateAS "u" ["a", "s"] "n" "c"
     (by decide) (by decide) ⟨"s", by decide, tagS, by decide, by decide⟩⟩

/-- C6 counterexample: the singleton request `["s"]` has a system tag among
its sources but fails with 400 Bad Request, not Forbidden, because the
length check runs first; so "fails with a Forbidden outcome" does not hold
for every request whose source set contains a system tag. -/
theorem C6_singleton_system_source_bad_request_counterexample :
    (∃ tid ∈ (["s"] : List String), ∃ t, get_by_id stateAS tid = some t
      ∧ t.is_system = true)
    ∧ (merge_tags_endpoint stateAS "u" ["s"] "n" "c").2 = .error .badRequest
    ∧ MergeError.badRequest.isForbidden = false :=
  ⟨⟨"s", by decide, tagS, by decide, by decide⟩, by decide, by decide⟩

lemma mem_mergePairs (s : GraphState) (ids : List String) (e : String × String) :
    e ∈ mergePairs s ids ↔ e ∈ s.hasTag ∧ e.2 ∈ ids := by
  simp [mergePairs]

lemma mem_mergeUrls (s : GraphState) (ids : List String) (u : String) :
    u ∈ mergeUrls s ids ↔ ∃ b, (u, b) ∈ s.hasTag ∧ b ∈ ids := by
  constructor
  · intro h
    rcases List.mem_map.mp (List.mem_dedup.mp h) with ⟨e, he, heq⟩
    rcases (mem_mergePairs s ids e).mp he with ⟨h1, h2⟩
    have hpe : (u, e.2) = e := by rw [← heq]
    exact ⟨e.2, hpe ▸ h1, h2⟩
  · rintro ⟨b, hedge, hb⟩
    exact List.mem_dedup.mpr
      (List.mem_map.mpr ⟨(u, b), (mem_mergePairs s ids (u, b)).mpr ⟨hedge, hb⟩, rfl⟩)

lemma mem_mergeRows4 (s : GraphState) (ids : List String) (target : String)
    (e : String × String) :
    e ∈ mergeRows4 s ids target ↔ e ∈ s.hasTag ∧ e.2 ∈ ids ∧ e.2 ≠ target := by
  unfold mergeRows4
  rw [List.mem_flatMap]
  constructor
  · rintro ⟨u, hu, hmem⟩
    rcases List.mem_map.mp hmem with ⟨st, hst, heq⟩
    rcases List.mem_filter.mp hst with ⟨hst1, hst2⟩
    have hne : st ≠ target := by
      have := (Bool.and_eq_true _ _).mp hst2
      exact of_decide_eq_true this.1
    rcases List.mem_map.mp (List.mem_dedup.mp hst1) with ⟨p, hp, hpeq⟩
    rcases List.mem_filter.mp hp with ⟨hp1, hp2⟩
    rcases (mem_mergePairs s ids p).mp hp1 with ⟨hedge, hpids⟩
    have hp1u : p.1 = u := of_decide_eq_true hp2
    have hpe : p = e := by rw [← heq, ← hp1u, ← hpeq]
    rw [← hpe]
    exact ⟨hedge, hpids, hpeq ▸ hne⟩
  · rintro ⟨hedge, hids, hne⟩
    refine ⟨e.1, (mem_mergeUrls s ids e.1).mpr ⟨e.2, hedge, hids⟩, ?_⟩
    refine List.mem_map.mpr ⟨e.2, ?_, rfl⟩
    refine List.mem_filter.mpr ⟨?_, ?_⟩
    · exact List.mem_dedup.mpr (List.mem_map.mpr
        ⟨e, List.mem_filter.mpr ⟨(mem_mergePairs s ids e).mpr ⟨hedge, hids⟩,
          by simp⟩, rfl⟩)
    · simp only [Bool.and_eq_true, decide_eq_true_eq]
      exact ⟨hne, List.mem_filter.mpr ⟨hids, by simp [hne]⟩⟩

lemma mem_merge_sourceTags (s : GraphState) (ids : List String) (target st : String) :
    st ∈ ((mergeRows4 s ids target).map Prod.snd).dedup ↔
      ∃ u, (u, st) ∈ s.hasTag ∧ st ∈ ids ∧ st ≠ target := by
  rw [List.mem_dedup, List.mem_map]
  constructor
  · rintro ⟨e, he, heq⟩
    rcases (mem_mergeRows4 s ids target e).mp he with ⟨h1, h2, h3⟩
    exact ⟨e.1, by rw [← heq]; exact ⟨h1, h2, h3⟩⟩
  · rintro ⟨u, h1, h2, h3⟩
    exact ⟨(u, st), (mem_mergeRows4 s ids target (u, st)).mpr ⟨h1, h2, h3⟩, rfl⟩

lemma merge_tags_def (s : GraphState) (ids : List String) (target nn nc : String)
    (t0 : Tag) (hfind : s.tags.find? (fun t => decide (t.id = target)) = some t0) :
    merge_tags s ids target nn nc =
      ({ users := s.users,
         tags := (s.tags.map (fun t => if t.id = target then
             { t with name := nn, color := some nc } else t)).filter
           (fun t => decide (t.id ∉ ((mergeRows4 s ids target).map Prod.snd).dedup)),
         urls := s.urls,
         owns := s.owns.filter
           (fun e => decide (e.2 ∉ ((mergeRows4 s ids target).map Prod.snd).dedup)),
         hasTag := ((s.hasTag ++
             ((mergeUrls s ids).filter
               (fun u => decide ((u, target) ∉ s.hasTag))).map (fun u => (u, target))).filter
             (fun e => decide (e ∉ mergeRows4 s ids target))).filter
           (fun e => decide (e.2 ∉ ((mergeRows4 s ids target).map Prod.snd).dedup)),
         rel := s.rel.filter (fun e =>
           decide (e.2.1 ∉ ((mergeRows4 s ids target).map Prod.snd).dedup) &&
           decide (e.2.2 ∉ ((mergeRows4 s ids target).map Prod.snd).dedup)) },
       ⟨((mergeRows4 s ids target).map Prod.fst).dedup.length,
        ((mergeRows4 s ids target).map Prod.snd).dedup.length⟩) := by
  unfold merge_tags
  rw [hfind]
  rfl

lemma merge_tags_spec (s : GraphState) (ids : List String) (target nn nc : String)
    (htgt : ∃ t ∈ s.tags, t.id = target) :
    (merge_tags s ids target nn nc).2 =
      ⟨(urlsTaggedByAny s (ids.filter (fun tid => decide (tid ≠ target)))).card,
       (attachedSourceTagIds s (ids.filter (fun tid => decide (tid ≠ target)))).card⟩
    ∧ (∀ u b, b ∈ ids → b ≠ target → (u, b) ∈ s.hasTag →
        (u, target) ∈ (merge_tags s ids target nn nc).1.hasTag)
    ∧ (∀ u b, b ∈ ids → b ≠ target → (u, b) ∉ (merge_tags s ids target nn nc).1.hasTag)
    ∧ (∀ t' ∈ (merge_tags s ids target nn nc).1.tags,
        ¬(t'.id ∈ ids ∧ t'.id ≠ target ∧ ∃ u, (u, t'.id) ∈ s.hasTag))
    ∧ (∀ t ∈ s.tags, t.id ≠ target → (∀ u, (u, t.id) ∉ s.hasTag) →
        t ∈ (merge_tags s ids target nn nc).1.tags)
    ∧ (∀ t ∈ s.tags, t.id ≠ target → t.id ∉ ids →
        t ∈ (merge_tags s ids target nn nc).1.tags)
    ∧ (∀ t ∈ s.tags, t.id = target →
        ({ t with name := nn, color := some nc } : Tag) ∈
          (merge_tags s ids target nn nc).1.tags) := by
  have hfind : ∃ t0, s.tags.find? (fun t => decide (t.id = target)) = some t0 := by
    rcases htgt with ⟨t, ht, htid⟩
    have hs : (s.tags.find? (fun t => decide (t.id = target))).isSome := by
      rw [List.find?_isSome]
      exact ⟨t, ht, by simp [htid]⟩
    exact Option.isSome_iff_exists.mp hs
  rcases hfind with ⟨t0, hfind⟩
  rw [merge_tags_def s ids target nn nc t0 hfind]
  dsimp only
  refine ⟨?_, ?_, ?_, ?_, ?_, ?_, ?_⟩
  · -- the returned counters
    have hU : ((mergeRows4 s ids target).map Prod.fst).toFinset =
        ((s.hasTag.filter (fun e =>
          decide (e.2 ∈ ids.filter (fun tid => decide (tid ≠ target))))).map
          Prod.fst).toFinset := by
      ext x
      simp only [List.mem_toFinset, List.mem_map, List.mem_filter, decide_eq_true_eq]
      constructor
      · rintro ⟨e, he, heq⟩
        rcases (mem_mergeRows4 s ids target e).mp he with ⟨h1, h2, h3⟩
        exact ⟨e, ⟨h1, h2, h3⟩, heq⟩
      · rintro ⟨e, ⟨h1, h2, h3⟩, heq⟩
        exact ⟨e, (mem_mergeRows4 s ids target e).mpr ⟨h1, h2, h3⟩, heq⟩
    have hT : ((mergeRows4 s ids target).map Prod.snd).toFinset =
        ((s.hasTag.filter (fun e =>
          decide (e.2 ∈ ids.filter (fun tid => decide (tid ≠ target))))).map
          Prod.snd).toFinset := by
      ext x
      simp only [List.mem_toFinset, List.mem_map, List.mem_filter, decide_eq_true_eq]
      constructor
      · rintro ⟨e, he, heq⟩
        rcases (mem_mergeRows4 s ids target e).mp he with ⟨h1, h2, h3⟩
        exact ⟨e, ⟨h1, h2, h3⟩, heq⟩
      · rintro ⟨e, ⟨h1, h2, h3⟩, heq⟩
        exact ⟨e, (mem_mergeRows4 s ids target e).mpr ⟨h1, h2, h3⟩, heq⟩
    have hUl : ((mergeRows4 s ids target).map Prod.fst).dedup.length =
        (urlsTaggedByAny s (ids.filter (fun tid => decide (tid ≠ target)))).card := by
      rw [urlsTaggedByAny, ← hU, List.card_toFinset]
    have hTl : ((mergeRows4 s ids target).map Prod.snd).dedup.length =
        (attachedSourceTagIds s (ids.filter (fun tid => decide (tid ≠ target)))).card := by
      rw [attachedSourceTagIds, ← hT, List.card_toFinset]
    rw [hUl, hTl]
  · -- every url that carried a non-target source tag now carries the target
    intro u b hb hbne hedge
    refine List.mem_filter.mpr ⟨List.mem_filter.mpr ⟨?_, ?_⟩, ?_⟩
    · by_cases hin : (u, target) ∈ s.hasTag
      · exact List.mem_append.mpr (Or.inl hin)
      · refine List.mem_append.mpr (Or.inr (List.mem_map.mpr ⟨u, ?_, rfl⟩))
        exact List.mem_filter.mpr
          ⟨(mem_mergeUrls s ids u).mpr ⟨b, hedge, hb⟩, by simp [hin]⟩
    · simp only [decide_eq_true_eq]
      intro hcon
      exact ((mem_mergeRows4 s ids target (u, target)).mp hcon).2.2 rfl
    · simp only [decide_eq_true_eq]
      intro hcon
      rcases (mem_merge_sourceTags s ids target target).mp hcon with ⟨_, _, _, hne⟩
      exact hne rfl
  · -- edges to non-target source tags are gone
    intro u b hb hbne hmem
    rcases List.mem_filter.mp hmem with ⟨hm1, _⟩
    rcases List.mem_filter.mp hm1 with ⟨hm2, hnotR⟩
    rcases List.mem_append.mp hm2 with hold | hnew
    · simp only [decide_eq_true_eq] at hnotR
      exact hnotR ((mem_mergeRows4 s ids target (u, b)).mpr ⟨hold, hb, hbne⟩)
    · rcases List.mem_map.mp hnew with ⟨u', _, hequ⟩
      exact hbne (congrArg Prod.snd hequ).symm
  · -- attached non-target source tags are deleted
    rintro t' ht' ⟨hids, hne, u, hedge⟩
    rcases List.mem_filter.mp ht' with ⟨_, hnotS⟩
    simp only [decide_eq_true_eq] at hnotS
    exact hnotS ((mem_merge_sourceTags s ids target t'.id).mpr ⟨u, hedge, hids, hne⟩)
  · -- tags attached to no url survive untouched
    intro t ht hne hnoedge
    refine List.mem_filter.mpr ⟨List.mem_map.mpr ⟨t, ht, by rw [if_neg hne]⟩, ?_⟩
    simp only [decide_eq_true_eq]
    intro hcon
    rcases (mem_merge_sourceTags s ids target t.id).mp hcon with ⟨u, hedge, _, _⟩
    exact hnoedge u hedge
  · -- tags outside the source list survive untouched
    intro t ht hne hnotin
    refine List.mem_filter.mpr ⟨List.mem_map.mpr ⟨t, ht, by rw [if_neg hne]⟩, ?_⟩
    simp only [decide_eq_true_eq]
    intro hcon
    rcases (mem_merge_sourceTags s ids target t.id).mp hcon with ⟨_, _, hids, _⟩
    exact hnotin hids
  · -- the target survives, renamed and recoloured
    intro t ht heq
    refine List.mem_filter.mpr ⟨List.mem_map.mpr ⟨t, ht, by rw [if_pos heq]⟩, ?_⟩
    simp only [decide_eq_true_eq]
    intro hcon
    rcases (mem_merge_sourceTags s ids target
      ({ t with name := nn, color := some nc } : Tag).id).mp hcon with ⟨_, _, _, hne⟩
    exact hne heq

lemma validate_merge_sources_none (s : GraphState) (user : String) :
    ∀ ids : List String, validate_merge_sources s user ids = none →
      ∀ tid ∈ ids, ∃ t, get_by_id s tid = some t := by
  intro ids
  induction ids with
  | nil =>
    intro _ tid htid
    cases htid
  | cons a rest ih =>
    intro h tid htid
    rcases ho : get_by_id s a with _ | t
    · exfalso
      have h2 : (some (MergeError.notFound a) : Option MergeError) = none := by
        unfold validate_merge_sources at h
        rw [ho] at h
        exact h
      cases h2
    · rcases List.mem_cons.mp htid with rfl | hmem
      · exact ⟨t, ho⟩
      · refine ih ?_ tid hmem
        have h2 : (if t.user_id ≠ user then some (MergeError.forbiddenNotOwner a)
            else if t.is_system = true then some MergeError.forbiddenSystem
            else validate_merge_sources s user rest) = none := by
          unfold validate_merge_sources at h
          rw [ho] at h
          exact h
        by_cases howner : t.user_id ≠ user
        · rw [if_pos howner] at h2
          cases h2
        · rw [if_neg howner] at h2
          by_cases hsys : t.is_system = true
          · rw [if_pos hsys] at h2
            cases h2
          · rwa [if_neg hsys] at h2

/-- C1 (amended): for a merge request that passes the controller's
validations, with the first source id as the target: every url that carried
a non-target source tag now carries the target and no longer carries any
non-target source tag; every *attached* non-target source tag is deleted,
but a source tag attached to no url survives (it appears in no pipeline row,
so it is neither deleted nor counted); tags outside the source list are
untouched and the target survives under its new name and colour;
`urls_updated` counts the distinct urls that carried a *non-target* source
tag (a url tagged only with the target is not counted), and `tags_merged`
counts the deleted (attached) source tags, not all non-target source
tags. -/
theorem C1_merge_collapse_semantics (s : GraphState) (user : String)
    (ids : List String) (nn nc : String)
    (hlen : 2 ≤ ids.length)
    (hval : validate_merge_sources s user ids = none) :
    (merge_tags_endpoint s user ids nn nc).2 =
      .ok ⟨(urlsTaggedByAny s
              (ids.filter (fun tid => decide (tid ≠ ids.headD "")))).card,
           (attachedSourceTagIds s
              (ids.filter (fun tid => decide (tid ≠ ids.headD "")))).card⟩
    ∧ (∀ u b, b ∈ ids → b ≠ ids.headD "" → (u, b) ∈ s.hasTag →
        (u, ids.headD "") ∈ (merge_tags_endpoint s user ids nn nc).1.hasTag)
    ∧ (∀ u b, b ∈ ids → b ≠ ids.headD "" →
        (u, b) ∉ (merge_tags_endpoint s user ids nn nc).1.hasTag)
    ∧ (∀ t' ∈ (merge_tags_endpoint s user ids nn nc).1.tags,
        ¬(t'.id ∈ ids ∧ t'.id ≠ ids.headD "" ∧ ∃ u, (u, t'.id) ∈ s.hasTag))
    ∧ (∀ t ∈ s.tags, t.id ≠ ids.headD "" → (∀ u, (u, t.id) ∉ s.hasTag) →
        t ∈ (merge_tags_endpoint s user ids nn nc).1.tags)
    ∧ (∀ t ∈ s.tags, t.id ≠ ids.headD "" → t.id ∉ ids →
        t ∈ (merge_tags_endpoint s user ids nn nc).1.tags)
    ∧ (∀ t ∈ s.tags, t.id = ids.headD "" →
        ({ t with name := nn, color := some nc } : Tag) ∈
          (merge_tags_endpoint s user ids nn nc).1.tags) := by
  have hd : merge_tags_endpoint s user ids nn nc =
      ((merge_tags s ids (ids.headD "") nn nc).1,
        .ok (merge_tags s ids (ids.headD "") nn nc).2) := by
    unfold merge_tags_endpoint
    rw [if_neg (by omega : ¬ids.length < 2), hval]
  have hhead : ids.headD "" ∈ ids := by
    rcases ids with _ | ⟨a, rest⟩
    · simp at hlen
    · exact List.mem_cons_self a rest
  rcases validate_merge_sources_none s user ids hval (ids.headD "") hhead with ⟨t, hget⟩
  have hget2 : s.tags.find? (fun t => decide (t.id = ids.headD "")) = some t := hget
  have htgt : ∃ t' ∈ s.tags, t'.id = ids.headD "" := by
    refine ⟨t, List.mem_of_find?_eq_some hget2, ?_⟩
    have hp := List.find?_some hget2
    exact of_decide_eq_true hp
  have main := merge_tags_spec s ids (ids.headD "") nn nc htgt
  rw [hd]
  exact ⟨by rw [main.1], main.2.1, main.2.2.1, main.2.2.2.1, main.2.2.2.2.1,
    main.2.2.2.2.2.1, main.2.2.2.2.2.2⟩

/-- Witness for C1 at the concrete input `stateABC`, merging
`["a", "b", "c"]` into `"a"`. -/
theorem C1_merge_collapse_semantics_witness :
    (2 ≤ (["a", "b", "c"] : List String).length
      ∧ validate_merge_sources stateABC "u" ["a", "b", "c"] = none)
    ∧ (merge_tags_endpoint stateABC "u" ["a", "b", "c"] "merged" "#fff").2 =
        .ok ⟨(urlsTaggedByAny stateABC
                ((["a", "b", "c"] : List String).filter
                  (fun tid => decide (tid ≠ (["a", "b", "c"] : List String).headD "")))).card,
             (attachedSourceTagIds stateABC
                ((["a", "b", "c"] : List String).filter
                  (fun tid => decide (tid ≠ (["a", "b", "c"] : List String).headD "")))).card⟩ :=
  ⟨⟨by decide, by decide⟩,
   (C1_merge_collapse_semantics stateABC "u" ["a", "b", "c"] "merged" "#fff"
     (by decide) (by decide)).1⟩

/-- C1 counterexample: in `stateABC` (url `u1` tagged `A`, url `u2` tagged
`B`, tag `C` attached to nothing) merging `{A, B, C}` into `A` returns
`urls_updated = 1` and `tags_merged = 1` — not `2` and `2` as the claim
requires (`u1`, which carried only the target `A`, is not counted, and the
unattached source tag `C` is not deleted: it is still present
afterwards). -/
theorem C1_merge_collapse_claim_counterexample :
    (merge_tags_endpoint stateABC "u" ["a", "b", "c"] "merged" "#fff").2 = .ok ⟨1, 1⟩
    ∧ (merge_tags_endpoint stateABC "u" ["a", "b", "c"] "merged" "#fff").2 ≠ .ok ⟨2, 2⟩
    ∧ tagC ∈ (merge_tags_endpoint stateABC "u" ["a", "b", "c"] "merged" "#fff").1.tags :=
  ⟨by decide, by decide, by decide⟩

lemma mem_docTypeTagIds (s : GraphState) (x : String) :
    x ∈ docTypeTagIds s ↔ ∃ t ∈ s.tags, t.name ∈ DOCUMENT_TYPES ∧ t.id = x := by
  unfold docTypeTagIds
  rw [List.mem_map]
  constructor
  · rintro ⟨t, ht, heq⟩
    rcases List.mem_filter.mp ht with ⟨ht1, ht2⟩
    exact ⟨t, ht1, of_decide_eq_true ht2, heq⟩
  · rintro ⟨t, ht, hdoc, heq⟩
    exact ⟨t, List.mem_filter.mpr ⟨ht, by simp [hdoc]⟩, heq⟩

lemma manage_def_found (s : GraphState) (fid : String) (now : Nat)
    (user url ty : String) (t : Tag)
    (hname : get_by_name_and_user s ty user = some t) :
    manage_document_type_tag s fid now user url (some ty) =
      { s with hasTag := clearedDocEdges s url ++ [(url, t.id)] } := by
  have h2 : get_by_name_and_user
      ({ s with hasTag := clearedDocEdges s url } : GraphState) ty user = some t := hname
  unfold manage_document_type_tag create
  dsimp only
  rw [h2]

lemma manage_def_new (s : GraphState) (fid : String) (now : Nat)
    (user url ty : String)
    (hname : get_by_name_and_user s ty user = none) (huser : user ∈ s.users) :
    manage_document_type_tag s fid now user url (some ty) =
      { s with
        tags := s.tags ++ [⟨fid, ty, some ("Type de document : " ++ ty),
          some DOCUMENT_TYPE_TAG_COLOR, user, true, now, now⟩],
        owns := s.owns ++ [(user, fid)],
        hasTag := clearedDocEdges s url ++ [(url, fid)] } := by
  have h2 : get_by_name_and_user
      ({ s with hasTag := clearedDocEdges s url } : GraphState) ty user = none := hname
  unfold manage_document_type_tag create
  dsimp only
  rw [h2, if_pos huser]
  rfl

lemma manage_some_spec (s : GraphState) (fid : String) (now : Nat)
    (user url ty : String)
    (hty : ty ∈ DOCUMENT_TYPES) (huser : user ∈ s.users)
    (hfT : ∀ t ∈ s.tags, t.id ≠ fid) (hfE : ∀ e ∈ s.hasTag, e.2 ≠ fid) :
    ∃ t : Tag,
      t ∈ (manage_document_type_tag s fid now user url (some ty)).tags
      ∧ t.name = ty
      ∧ urlDocTypeTagIds (manage_document_type_tag s fid now user url (some ty)) url
          = [t.id]
      ∧ (manage_document_type_tag s fid now user url (some ty)).users = s.users
      ∧ (((manage_document_type_tag s fid now user url (some ty)).tags = s.tags
            ∧ t ∈ s.tags)
          ∨ ((manage_document_type_tag s fid now user url (some ty)).tags = s.tags ++ [t]
            ∧ t.id = fid))
      ∧ (manage_document_type_tag s fid now user url (some ty)).hasTag =
          clearedDocEdges s url ++ [(url, t.id)] := by
  rcases hname : get_by_name_and_user s ty user with _ | t
  · -- the document-type tag does not yet exist for this user: it is created
    rw [manage_def_new s fid now user url ty hname huser]
    refine ⟨⟨fid, ty, some ("Type de document : " ++ ty),
      some DOCUMENT_TYPE_TAG_COLOR, user, true, now, now⟩,
      List.mem_append.mpr (Or.inr (List.mem_singleton_self _)), rfl, ?_, rfl,
      Or.inr ⟨rfl, rfl⟩, rfl⟩
    have hdocS : ∀ x, x ∈ docTypeTagIds
        ({ s with
          tags := s.tags ++ [⟨fid, ty, some ("Type de document : " ++ ty),
            some DOCUMENT_TYPE_TAG_COLOR, user, true, now, now⟩],
          owns := s.owns ++ [(user, fid)],
          hasTag := clearedDocEdges s url ++ [(url, fid)] } : GraphState) ↔
        (x ∈ docTypeTagIds s ∨ x = fid) := by
      intro x
      rw [mem_docTypeTagIds]
      constructor
      · rintro ⟨t, ht, hdoc, hid⟩
        rcases List.mem_append.mp ht with h | h
        · exact Or.inl ((mem_docTypeTagIds s x).mpr ⟨t, h, hdoc, hid⟩)
        · rw [List.mem_singleton.mp h] at hid
          exact Or.inr hid.symm
      · rintro (h | rfl)
        · rcases (mem_docTypeTagIds s x).mp h with ⟨t, ht, hdoc, hid⟩
          exact ⟨t, List.mem_append.mpr (Or.inl ht), hdoc, hid⟩
        · exact ⟨_, List.mem_append.mpr (Or.inr (List.mem_singleton_self _)), hty, rfl⟩
    unfold urlDocTypeTagIds
    dsimp only
    rw [List.filter_append]
    have hclr : (clearedDocEdges s url).filter (fun e => decide (e.1 = url) &&
        decide (e.2 ∈ docTypeTagIds
          ({ s with
            tags := s.tags ++ [⟨fid, ty, some ("Type de document : " ++ ty),
              some DOCUMENT_TYPE_TAG_COLOR, user, true, now, now⟩],
            owns := s.owns ++ [(user, fid)],
            hasTag := clearedDocEdges s url ++ [(url, fid)] } : GraphState))) = [] := by
      rw [List.filter_eq_nil_iff]
      intro e he hpe
      rcases List.mem_filter.mp he with ⟨heS, hne⟩
      rcases (Bool.and_eq_true _ _).mp hpe with ⟨h1, h2⟩
      rcases (hdocS e.2).mp (of_decide_eq_true h2) with hdoc | hfid2
      · have hco : (decide (e.1 = url) && decide (e.2 ∈ docTypeTagIds s)) = true := by
          rw [h1, decide_eq_true hdoc]
          rfl
        rw [hco] at hne
        cases hne
      · exact hfE e heS hfid2
    have hone : (([(url, fid)] : List (String × String)).filter
        (fun e => decide (e.1 = url) && decide (e.2 ∈ docTypeTagIds
          ({ s with
            tags := s.tags ++ [⟨fid, ty, some ("Type de document : " ++ ty),
              some DOCUMENT_TYPE_TAG_COLOR, user, true, now, now⟩],
            owns := s.owns ++ [(user, fid)],
            hasTag := clearedDocEdges s url ++ [(url, fid)] } : GraphState))))
        = [(url, fid)] := by
      apply List.filter_eq_self.mpr
      intro a ha
      rw [List.mem_singleton.mp ha]
      exact (Bool.and_eq_true _ _).mpr
        ⟨by simp, decide_eq_true ((hdocS fid).mpr (Or.inr rfl))⟩
    rw [hclr, hone]
    simp
  · -- the document-type tag already exists for this user: it is reused
    have hname2 : (s.tags.find? (fun x => decide ((user, x.id) ∈ s.owns) &&
        decide (x.name = ty))) = some t := by
      have h := hname
      unfold get_by_name_and_user at h
      rwa [if_pos huser] at h
    have ht_mem : t ∈ s.tags := List.mem_of_find?_eq_some hname2
    have ht_pred := List.find?_some hname2
    have ht_name : t.name = ty :=
      of_decide_eq_true ((Bool.and_eq_true _ _).mp ht_pred).2
    rw [manage_def_found s fid now user url ty t hname]
    refine ⟨t, ht_mem, ht_name, ?_, rfl, Or.inl ⟨rfl, ht_mem⟩, rfl⟩
    have hdoc_eq : docTypeTagIds
        ({ s with hasTag := clearedDocEdges s url ++ [(url, t.id)] } : GraphState) =
        docTypeTagIds s := rfl
    unfold urlDocTypeTagIds
    dsimp only
    rw [List.filter_append, hdoc_eq]
    have hclr : (clearedDocEdges s url).filter
        (fun e => decide (e.1 = url) && decide (e.2 ∈ docTypeTagIds s)) = [] := by
      rw [List.filter_eq_nil_iff]
      intro e he hpe
      rcases List.mem_filter.mp he with ⟨heS, hne⟩
      rw [hpe] at hne
      cases hne
    have hone : (([(url, t.id)] : List (String × String)).filter
        (fun e => decide (e.1 = url) && decide (e.2 ∈ docTypeTagIds s))) =
        [(url, t.id)] := by
      apply List.filter_eq_self.mpr
      intro a ha
      rw [List.mem_singleton.mp ha]
      refine (Bool.and_eq_true _ _).mpr ⟨by simp, decide_eq_true ?_⟩
      exact (mem_docTypeTagIds s t.id).mpr ⟨t, ht_mem, ht_name ▸ hty, rfl⟩
    rw [hclr, hone]
    simp

lemma docTypeTagIds_congr (s' s : GraphState) (h : s'.tags = s.tags) :
    docTypeTagIds s' = docTypeTagIds s := by
  unfold docTypeTagIds
  rw [h]

lemma docTypeTagIds_shape (s' s : GraphState) (nt : Tag)
    (h : s'.tags = s.tags ++ [nt]) (hdoc : nt.name ∈ DOCUMENT_TYPES) (x : String) :
    x ∈ docTypeTagIds s' ↔ (x ∈ docTypeTagIds s ∨ x = nt.id) := by
  rw [mem_docTypeTagIds, h]
  constructor
  · rintro ⟨t, ht, htdoc, hid⟩
    rcases List.mem_append.mp ht with hmem | hmem
    · exact Or.inl ((mem_docTypeTagIds s x).mpr ⟨t, hmem, htdoc, hid⟩)
    · rw [List.mem_singleton.mp hmem] at hid
      exact Or.inr hid.symm
  · rintro (hx | rfl)
    · rcases (mem_docTypeTagIds s x).mp hx with ⟨t, ht, htdoc, hid⟩
      exact ⟨t, List.mem_append.mpr (Or.inl ht), htdoc, hid⟩
    · exact ⟨nt, List.mem_append.mpr (Or.inr (List.mem_singleton_self _)), hdoc, rfl⟩

lemma urlDocTypeTagIds_frame (s' s : GraphState) (url w fid tid : String)
    (hw : w ≠ url)
    (hht : s'.hasTag = clearedDocEdges s url ++ [(url, tid)])
    (hdocIff : ∀ x, x ≠ fid → (x ∈ docTypeTagIds s' ↔ x ∈ docTypeTagIds s))
    (hfE : ∀ e ∈ s.hasTag, e.2 ≠ fid) :
    urlDocTypeTagIds s' w = urlDocTypeTagIds s w := by
  unfold urlDocTypeTagIds
  rw [hht, List.filter_append]
  have h1 : (([(url, tid)] : List (String × String)).filter
      (fun e => decide (e.1 = w) && decide (e.2 ∈ docTypeTagIds s'))) = [] := by
    rw [List.filter_eq_nil_iff]
    intro a ha
    rw [List.mem_singleton.mp ha]
    simp [Ne.symm hw]
  have h2 : (clearedDocEdges s url).filter
      (fun e => decide (e.1 = w) && decide (e.2 ∈ docTypeTagIds s')) =
      s.hasTag.filter (fun e => decide (e.1 = w) && decide (e.2 ∈ docTypeTagIds s)) := by
    unfold clearedDocEdges
    rw [List.filter_filter]
    apply List.filter_congr
    intro e he
    by_cases hew : e.1 = w
    · have hnu : ¬(e.1 = url) := by
        rw [hew]
        exact hw
      have hdd : decide (e.2 ∈ docTypeTagIds s') = decide (e.2 ∈ docTypeTagIds s) :=
        decide_eq_decide.mpr (hdocIff e.2 (hfE e he))
      rw [hdd]
      simp [hew, hnu]
      intro _
      exact Or.inl hw
    · simp [hew]
  rw [h1, h2, List.append_nil]

/-- C3: under the spec-modelled document-type rule, (a) after
`manage_document_type_tag` sets a document type on a url, that url carries
exactly one document-type tag and every other url's document-type tags are
untouched, so the at-most-one invariant holds at every point in a run of
these operations; and (b) setting the type of one url to `"Invoice"` and
then to `"Receipt"` leaves the url with exactly one document-type tag, named
`"Receipt"`, and no `"Invoice"` document-type tag.  The identifier
hypotheses state that the supplied uuids are fresh. -/
theorem C3_document_type_disjoint_rule :
    (∀ (s : GraphState) (fid : String) (now : Nat) (user url ty : String),
        ty ∈ DOCUMENT_TYPES → user ∈ s.users →
        (∀ t ∈ s.tags, t.id ≠ fid) → (∀ e ∈ s.hasTag, e.2 ≠ fid) →
        (urlDocTypeTagIds (manage_document_type_tag s fid now user url (some ty))
            url).length = 1
        ∧ (∀ w, w ≠ url →
            urlDocTypeTagIds (manage_document_type_tag s fid now user url (some ty)) w =
              urlDocTypeTagIds s w))
    ∧ (∀ (s : GraphState) (f1 f2 : String) (now1 now2 : Nat) (user url : String),
        user ∈ s.users → (s.tags.map Tag.id).Nodup →
        (∀ t ∈ s.tags, t.id ≠ f1) → (∀ e ∈ s.hasTag, e.2 ≠ f1) →
        (∀ t ∈ s.tags, t.id ≠ f2) → (∀ e ∈ s.hasTag, e.2 ≠ f2) → f1 ≠ f2 →
        (∃ t ∈ (manage_document_type_tag (manage_document_type_tag s f1 now1 user url
              (some "Invoice")) f2 now2 user url (some "Receipt")).tags,
            t.name = "Receipt" ∧
            urlDocTypeTagIds (manage_document_type_tag (manage_document_type_tag s f1
              now1 user url (some "Invoice")) f2 now2 user url (some "Receipt")) url =
              [t.id])
        ∧ (∀ t ∈ (manage_document_type_tag (manage_document_type_tag s f1 now1 user url
              (some "Invoice")) f2 now2 user url (some "Receipt")).tags,
            t.name = "Invoice" →
            t.id ∉ urlDocTypeTagIds (manage_document_type_tag
              (manage_document_type_tag s f1 now1 user url (some "Invoice")) f2 now2
              user url (some "Receipt")) url)) := by
  have frame : ∀ (s : GraphState) (fid : String) (now : Nat) (user url ty : String),
      ty ∈ DOCUMENT_TYPES → user ∈ s.users →
      (∀ t ∈ s.tags, t.id ≠ fid) → (∀ e ∈ s.hasTag, e.2 ≠ fid) →
      ∀ w, w ≠ url →
        urlDocTypeTagIds (manage_document_type_tag s fid now user url (some ty)) w =
          urlDocTypeTagIds s w := by
    intro s fid now user url ty hty huser hfT hfE w hw
    obtain ⟨t, _, htname, _, _, hshape, hht⟩ :=
      manage_some_spec s fid now user url ty hty huser hfT hfE
    refine urlDocTypeTagIds_frame _ s url w fid t.id hw hht ?_ hfE
    intro x hxf
    rcases hshape with ⟨htags, htmem⟩ | ⟨htags, hidf⟩
    · rw [docTypeTagIds_congr _ s htags]
    · rw [docTypeTagIds_shape _ s t htags (htname ▸ hty) x]
      constructor
      · rintro (hx | rfl)
        · exact hx
        · exact absurd hidf hxf
      · exact Or.inl
  constructor
  · intro s fid now user url ty hty huser hfT hfE
    obtain ⟨t, _, _, hurl, _, _, _⟩ := manage_some_spec s fid now user url ty hty huser hfT hfE
    exact ⟨by rw [hurl]; rfl, frame s fid now user url ty hty huser hfT hfE⟩
  · intro s f1 f2 now1 now2 user url huser hND hfT1 hfE1 hfT2 hfE2 hf12
    have hInv : "Invoice" ∈ DOCUMENT_TYPES := by decide
    have hRec : "Receipt" ∈ DOCUMENT_TYPES := by decide
    obtain ⟨t1, ht1mem, ht1name, ht1url, husers1, hshape1, hht1⟩ :=
      manage_some_spec s f1 now1 user url "Invoice" hInv huser hfT1 hfE1
    have hid1 : t1.id = f1 ∨ t1 ∈ s.tags := by
      rcases hshape1 with ⟨_, h⟩ | ⟨_, h⟩
      · exact Or.inr h
      · exact Or.inl h
    have huser1 : user ∈ (manage_document_type_tag s f1 now1 user url
        (some "Invoice")).users := by
      rw [husers1]
      exact huser
    have hfT2' : ∀ t ∈ (manage_document_type_tag s f1 now1 user url
        (some "Invoice")).tags, t.id ≠ f2 := by
      intro t ht
      rcases hshape1 with ⟨htags, _⟩ | ⟨htags, hidf⟩
      · rw [htags] at ht
        exact hfT2 t ht
      · rw [htags] at ht
        rcases List.mem_append.mp ht with hmem | hmem
        · exact hfT2 t hmem
        · rw [List.mem_singleton.mp hmem, hidf]
          exact hf12
    have hfE2' : ∀ e ∈ (manage_document_type_tag s f1 now1 user url
        (some "Invoice")).hasTag, e.2 ≠ f2 := by
      intro e he
      rw [hht1] at he
      rcases List.mem_append.mp he with hmem | hmem
      · exact hfE2 e (List.mem_of_mem_filter hmem)
      · rw [List.mem_singleton.mp hmem]
        rcases hid1 with h | h
        · rw [h]
          exact hf12
        · exact hfT2 t1 h
    have hND1 : ((manage_document_type_tag s f1 now1 user url
        (some "Invoice")).tags.map Tag.id).Nodup := by
      rcases hshape1 with ⟨htags, _⟩ | ⟨htags, hidf⟩
      · rw [htags]
        exact hND
      · rw [htags, List.map_append]
        rw [List.nodup_append]
        refine ⟨hND, by simp, ?_⟩
        intro x hx hx1
        rcases List.mem_map.mp hx with ⟨t, ht, hteq⟩
        simp only [List.map_cons, List.map_nil, List.mem_singleton] at hx1
        rw [hx1, hidf] at hteq
        exact hfT1 t ht hteq
    obtain ⟨t2, ht2mem, ht2name, ht2url, _, hshape2, hht2⟩ :=
      manage_some_spec (manage_document_type_tag s f1 now1 user url (some "Invoice"))
        f2 now2 user url "Receipt" hRec huser1 hfT2' hfE2'
    have hND2 : ((manage_document_type_tag (manage_document_type_tag s f1 now1 user url
        (some "Invoice")) f2 now2 user url (some "Receipt")).tags.map Tag.id).Nodup := by
      rcases hshape2 with ⟨htags, _⟩ | ⟨htags, hidf⟩
      · rw [htags]
        exact hND1
      · rw [htags, List.map_append, List.nodup_append]
        refine ⟨hND1, by simp, ?_⟩
        intro x hx hx1
        rcases List.mem_map.mp hx with ⟨t, ht, hteq⟩
        simp only [List.map_cons, List.map_nil, List.mem_singleton] at hx1
        rw [hx1, hidf] at hteq
        exact hfT2' t ht hteq
    refine ⟨⟨t2, ht2mem, ht2name, ht2url⟩, ?_⟩
    intro t ht htname hmem
    rw [ht2url] at hmem
    have hteq : t = t2 := List.inj_on_of_nodup_map hND2 ht ht2mem (List.mem_singleton.mp hmem)
    rw [hteq, ht2name] at htname
    exact absurd htname (by decide)

/-- Witness for C3 at the concrete input `stateW` (one user, one untagged
url): the per-operation invariant with type `"Invoice"`, and the
Invoice-then-Receipt scenario with fresh ids `"t1"`, `"t2"`. -/
theorem C3_document_type_disjoint_rule_witness :
    ("Invoice" ∈ DOCUMENT_TYPES ∧ "u" ∈ stateW.users ∧ ("t1" : String) ≠ "t2")
    ∧ ((urlDocTypeTagIds (manage_document_type_tag stateW "t1" 1 "u" "w"
          (some "Invoice")) "w").length = 1
      ∧ (∀ w, w ≠ "w" →
          urlDocTypeTagIds (manage_document_type_tag stateW "t1" 1 "u" "w"
            (some "Invoice")) w = urlDocTypeTagIds stateW w))
    ∧ ((∃ t ∈ (manage_document_type_tag (manage_document_type_tag stateW "t1" 1 "u" "w"
          (some "Invoice")) "t2" 2 "u" "w" (some "Receipt")).tags,
        t.name = "Receipt" ∧
        urlDocTypeTagIds (manage_document_type_tag (manage_document_type_tag stateW "t1"
          1 "u" "w" (some "Invoice")) "t2" 2 "u" "w" (some "Receipt")) "w" = [t.id])
      ∧ (∀ t ∈ (manage_document_type_tag (manage_document_type_tag stateW "t1" 1 "u" "w"
          (some "Invoice")) "t2" 2 "u" "w" (some "Receipt")).tags,
        t.name = "Invoice" →
        t.id ∉ urlDocTypeTagIds (manage_document_type_tag (manage_document_type_tag
          stateW "t1" 1 "u" "w" (some "Invoice")) "t2" 2 "u" "w" (some "Receipt")) "w")) :=
  ⟨⟨by decide, by decide, by decide⟩,
   C3_document_type_disjoint_rule.1 stateW "t1" 1 "u" "w" "Invoice" (by decide)
     (by decide) (by decide) (by decide),
   C3_document_type_disjoint_rule.2 stateW "t1" "t2" 1 2 "u" "w" (by decide) (by decide)
     (by decide) (by decide) (by decide) (by decide) (by decide)⟩

end TagLinks
